import Mathlib

/-!
Verification of the canonical-field row mapping and sheet synchronization
logic of the AMR data-collection app (src/app.py).

Modelling conventions:
* a record (Python dict from field name to cell value) is an association
  list `List (String × String)`; `dget` models `dict.get(key, default)`;
* a worksheet is a `List (List String)` of rows, row 1 of the sheet being
  the head of the list (1-based remote row `r` is list index `r - 1`);
* strings that are manipulated character-wise (A1 ranges, URLs) are
  modelled as `List Char`; `py_split` and `py_contains` model the Python
  `str.split` and `in` operators for a non-empty separator;
* a remote endpoint is `Option` of its state: `none` models any remote
  access failure (the `except Exception` arm of the source function), and
  the `Option String` component of a result models the `st.error` message
  the source displays on that arm.
-/

/-- Canonical field order (`FIELDS` in src/app.py, lines 36-41). -/
def FIELDS : List String :=
  ["Age", "Gender", "Species", "Rectal_CPE_Pos", "Setting", "Acquisition", "BSI_Source",
   "CHF", "CKD", "Tumor", "Diabetes", "Immunosuppressed",
   "CR", "BLBLI_R", "FQR", "GC3_R",
   "Timestamp", "Entry_By"]

/-- A record: field name to cell value, as an association list. -/
abbrev Rec := List (String × String)

/-- `dget rec k d` models Python `rec.get(k, d)` on a dict given as an
association list (first binding wins; the dicts built by the app have
unique keys). -/
def dget (rec : Rec) (k : String) (d : String) : String :=
  match rec.find? (fun kv => kv.1 == k) with
  | some kv => kv.2
  | none => d

/-- Does the record contain the key at all? -/
def hasKey (rec : Rec) (k : String) : Bool :=
  (rec.find? (fun kv => kv.1 == k)).isSome

/-- The positional row built from a record, `[patient.get(f, "") for f in FIELDS]`
(src/app.py lines 111 and 129). -/
def rowOf (patient : Rec) : List String :=
  FIELDS.map (fun f => dget patient f "")

/-- `ensure_sheet_headers` (src/app.py lines 70-78) with an explicit count
of remote writes issued: `values = worksheet.get_all_values()`; if there are
no rows at all, append the canonical header row (one write), otherwise do
nothing. -/
def ensure_sheet_headersW (ws : List (List String)) : List (List String) × Nat :=
  if ws.isEmpty then (ws ++ [FIELDS], 1) else (ws, 0)

/-- The worksheet after `ensure_sheet_headers`. -/
def ensure_sheet_headers (ws : List (List String)) : List (List String) :=
  (ensure_sheet_headersW ws).1

/-- Decimal digits of a natural number, fuel-based so that it reduces in
the kernel (models Python `str(n)` inside an f-string). -/
def natCharsAux : Nat → Nat → List Char
  | 0, _ => []
  | fuel + 1, n =>
      if n < 10 then [Char.ofNat (48 + n)]
      else natCharsAux fuel (n / 10) ++ [Char.ofNat (48 + n % 10)]

/-- Decimal representation of `n` as characters. -/
def natChars (n : Nat) : List Char := natCharsAux (n + 1) n

/-- `last_col = chr(64 + len(values))` (src/app.py line 131): the last
column letter of the update range, computed by a single-character offset. -/
def last_col (w : Nat) : Char := Char.ofNat (64 + w)

/-- `range_a1 = f"A{sheet_row}:{last_col}{sheet_row}"` (src/app.py
line 132), as a character list. -/
def range_a1 (w row : Nat) : List Char :=
  ['A'] ++ natChars row ++ [':'] ++ [last_col w] ++ natChars row

/-- Is the character a spreadsheet column letter `A`..`Z`? -/
def isColLetter (c : Char) : Bool := 65 ≤ c.toNat && c.toNat ≤ 90

/-- A valid A1 column identifier: a non-empty string of column letters. -/
def isValidColId (s : List Char) : Bool := !s.isEmpty && s.all isColLetter

/-- Numeric value of one column letter (`A` = 1, ..., `Z` = 26). -/
def colLetterVal (c : Char) : Nat := c.toNat - 64

/-- Base-26 value of a (multi-letter) column identifier, `A` = 1. -/
def colIdVal (s : List Char) : Nat :=
  s.foldl (fun a c => a * 26 + colLetterVal c) 0

/-- `update_patient_in_sheet` (src/app.py lines 119-137), success path:
`sheet_row = index_0_based + 2`; build the positional row; compute the
single-range address; write that one row.  Returns the worksheet after
the write together with the A1 range string used. -/
def update_patient_in_sheet (ws : List (List String)) (index_0_based : Nat)
    (patient : Rec) : List (List String) × List Char :=
  let sheet_row := index_0_based + 2
  let values := rowOf patient
  (ws.set (sheet_row - 1) values, range_a1 values.length sheet_row)

/-- `delete_patient_in_sheet` (src/app.py lines 140-152), success path:
`sheet_row = index_0_based + 2`; `worksheet.delete_rows(sheet_row)` removes
the 1-based remote row `sheet_row`. -/
def delete_patient_in_sheet (ws : List (List String)) (index_0_based : Nat) :
    List (List String) :=
  let sheet_row := index_0_based + 2
  ws.take (sheet_row - 1) ++ ws.drop sheet_row

/-- `append_patient_to_sheet` (src/app.py lines 102-116), success path:
ensure headers, then append the positional row as a new last row. -/
def append_patient_to_sheet (ws : List (List String)) (patient : Rec) :
    List (List String) :=
  ensure_sheet_headers ws ++ [rowOf patient]

/-- Pad a raw sheet row with empty cells up to the header width (the
remote store materializes short rows this way when keying them by the
header). -/
def padRow (n : Nat) (r : List String) : List String :=
  r ++ List.replicate (n - r.length) ""

/-- `worksheet.get_all_records()` (external collaborator, used at
src/app.py line 90): row 1 is the header; every later row becomes a
field-to-value mapping keyed by the header cells. -/
def get_all_records (ws : List (List String)) : List Rec :=
  match ws with
  | [] => []
  | header :: rows => rows.map (fun r => header.zip (padRow header.length r))

/-- A dataframe: ordered column names plus positional rows. -/
structure Frame where
  cols : List String
  rows : List (List String)
  deriving DecidableEq, Repr

/-- `pd.DataFrame(records).reindex(columns=FIELDS, fill_value="")`
(src/app.py lines 93-95) for records materialized from one header: every
record is projected onto the canonical field order, missing fields becoming
empty strings and extra columns being dropped. -/
def reindex_records (records : List Rec) : Frame :=
  ⟨FIELDS, records.map (fun r => FIELDS.map (fun f => dget r f ""))⟩

/-- `load_data_from_sheets` (src/app.py lines 81-99).  `remote = none`
models the `except Exception` arm: an error message is displayed and an
empty frame over the canonical fields is returned.  On success the records
are loaded and reindexed; with no records an empty canonical frame is
returned. -/
def load_data_from_sheets (remote : Option (List (List String))) :
    Frame × Option String :=
  match remote with
  | none => (⟨FIELDS, []⟩, some "Error loading data from Google Sheets")
  | some ws =>
      let records := get_all_records (ensure_sheet_headers ws)
      if records.isEmpty then (⟨FIELDS, []⟩, none)
      else (reindex_records records, none)

/-- `append_patient_to_sheet` with its failure arm (src/app.py lines
107-116): on any remote failure it returns `False` and an error message;
on success it returns `True` and the written worksheet. -/
def append_patient_call (remote : Option (List (List String))) (patient : Rec) :
    Option (List (List String)) × Bool × Option String :=
  match remote with
  | none => (none, false, some "Failed to append patient to sheet")
  | some ws => (some (append_patient_to_sheet ws patient), true, none)

/-- `update_patient_in_sheet` with its failure arm (src/app.py lines
124-137). -/
def update_patient_call (remote : Option (List (List String))) (index_0_based : Nat)
    (patient : Rec) : Option (List (List String)) × Bool × Option String :=
  match remote with
  | none => (none, false, some "Failed to update patient in sheet")
  | some ws => (some (update_patient_in_sheet ws index_0_based patient).1, true, none)

/-- `delete_patient_in_sheet` with its failure arm (src/app.py lines
144-152). -/
def delete_patient_call (remote : Option (List (List String))) (index_0_based : Nat) :
    Option (List (List String)) × Bool × Option String :=
  match remote with
  | none => (none, false, some "Failed to delete patient row in sheet")
  | some ws => (some (delete_patient_in_sheet ws index_0_based), true, none)

/-!  Session-state handlers.  The in-memory Record Set `patients_df` is a
list of positional rows over the canonical fields. -/

/-- The local update the save handler performs before touching the remote
store (src/app.py lines 336-340): append the new row, or replace row
`idx` in place. -/
def local_save (df : List (List String)) (is_new : Bool) (idx : Nat)
    (record : Rec) : List (List String) :=
  if is_new then df ++ [rowOf record] else df.set idx (rowOf record)

/-- The save handler (src/app.py lines 336-358): local update first; then,
if a client is connected, push to the sheet; on success replace the Record
Set by the reloaded data, on failure display an error and keep the locally
updated Record Set. -/
def save_handler (df : List (List String)) (is_new : Bool) (idx : Nat)
    (record : Rec) (client_connected remote_ok : Bool)
    (reloaded : List (List String)) : List (List String) :=
  let df1 := local_save df is_new idx record
  if client_connected then
    if remote_ok then reloaded else df1
  else df1

/-- The per-row delete handler (src/app.py lines 261-276): with a client,
delete remotely and reload on success, keep the Record Set on failure;
without a client, drop the row locally. -/
def delete_handler (df : List (List String)) (idx : Nat)
    (client_connected remote_ok : Bool) (reloaded : List (List String)) :
    List (List String) :=
  if client_connected then
    if remote_ok then reloaded else df
  else df.eraseIdx idx

/-- The sync handler (src/app.py lines 202-209): with a client, replace the
Record Set by whatever `load_data_from_sheets` returned. -/
def sync_handler (df : List (List String)) (client_connected : Bool)
    (loaded : List (List String)) : List (List String) :=
  if client_connected then loaded else df

/-- Python `options.index(value)`: index of the first occurrence. -/
def list_index {α : Type} [DecidableEq α] : List α → α → Option Nat
  | [], _ => none
  | a :: as, v => if a = v then some 0 else (list_index as v).map (fun i => i + 1)

/-- `safe_index` (src/app.py lines 158-163): `options.index(value)`, with
any lookup failure caught and replaced by the default index. -/
def safe_index {α : Type} [DecidableEq α] (options : List α) (value : α)
    (default : Nat) : Nat :=
  match list_index options value with
  | some i => i
  | none => default

/-!  Python string primitives over character lists, for `get_sheet_id`. -/

/-- Is `a` an initial segment of `b`? -/
def leadsWith : List Char → List Char → Bool
  | [], _ => true
  | _ :: _, [] => false
  | a :: as, b :: bs => a == b && leadsWith as bs

/-- First occurrence of `sep` in a string: `some (before, after)` split
around the first occurrence, `none` if `sep` does not occur. -/
def splitFirst (sep : List Char) : List Char → Option (List Char × List Char)
  | [] => if sep.isEmpty then some ([], []) else none
  | c :: rest =>
      if leadsWith sep (c :: rest) then some ([], (c :: rest).drop sep.length)
      else
        match splitFirst sep rest with
        | some (pre, post) => some (c :: pre, post)
        | none => none

/-- Python `sub in s` for a non-empty `sub`. -/
def py_contains (s sub : List Char) : Bool := (splitFirst sub s).isSome

/-- Fuel-driven repeated splitting (the fuel only needs to exceed the
number of separator occurrences; `s.length` always suffices for a
non-empty separator). -/
def splitOnFuel (sep : List Char) : Nat → List Char → List (List Char)
  | 0, s => [s]
  | fuel + 1, s =>
      match splitFirst sep s with
      | none => [s]
      | some (pre, post) => pre :: splitOnFuel sep fuel post

/-- Python `s.split(sep)` for a non-empty separator. -/
def py_split (s sep : List Char) : List (List Char) := splitOnFuel sep s.length s

/-- The literal `"docs.google.com/spreadsheets"` tested by `get_sheet_id`. -/
def docs_pat : List Char := "docs.google.com/spreadsheets".toList

/-- The literal `"/d/"` tested by `get_sheet_id`, written out as its
three characters. -/
def d_pat : List Char := ['/', 'd', '/']

/-- `get_sheet_id` (src/app.py lines 395-416): if the locator contains
`docs.google.com/spreadsheets`, it must contain `/d/` — then the id is
`sheet_url.split("/d/")[1].split("/")[0]` — otherwise the resolution fails
with an error; a locator without the docs marker is used verbatim. -/
def get_sheet_id (sheet_url : List Char) : Option (List Char) × Option String :=
  if py_contains sheet_url docs_pat then
    if py_contains sheet_url d_pat then
      (some (((py_split ((py_split sheet_url d_pat).getD 1 []) ['/']).getD 0 [])), none)
    else (none, some "Invalid Sheet URL format")
  else (some sheet_url, none)

/-!  Theorems for the claims. -/

/-- C1: the update range starts at column `A` and, for a schema width of at
most 26, ends at the single letter whose value is exactly the width; but at
width 27 the computed end column `chr(64 + 27) = chr(91)` is not a column
letter at all, the produced range `A2:[2` has an invalid end column, while
the valid base-26 identifier for column 27 would be the multi-letter `AA`.
The single-letter computation therefore does not resolve to a valid column
identifier beyond width 26. -/
theorem update_range_single_letter_column_overflow :
    (∀ w, w < 27 → 1 ≤ w →
      isColLetter (last_col w) = true ∧ colLetterVal (last_col w) = w) ∧
    isColLetter (last_col 27) = false ∧
    range_a1 27 2 = ['A', '2', ':', '[', '2'] ∧
    isValidColId [last_col 27] = false ∧
    isValidColId ['A', 'A'] = true ∧ colIdVal ['A', 'A'] = 27 := by
  refine ⟨by decide, by decide, by decide, by decide, by decide, by decide⟩

/-- Witness for C1 at the deployed width 18: column letter `R`, value 18. -/
theorem update_range_single_letter_column_overflow_witness :
    isColLetter (last_col 18) = true ∧ colLetterVal (last_col 18) = 18 :=
  update_range_single_letter_column_overflow.1 18 (by decide) (by decide)

/-- C4: on a remote access failure, `load_data_from_sheets` returns the
empty frame whose column set is exactly the canonical schema, together with
a non-empty displayed error message, instead of raising. -/
theorem load_failure_empty_frame :
    load_data_from_sheets none
      = (⟨FIELDS, []⟩, some "Error loading data from Google Sheets") ∧
    "Error loading data from Google Sheets" ≠ "" := by
  exact ⟨rfl, by decide⟩

/-- C6: `ensure_sheet_headers` issues its single header write exactly when
the table has no rows at all; on any non-empty table it performs no remote
write and leaves the table untouched; it never writes more than once. -/
theorem ensure_headers_writes_iff_empty :
    ∀ ws : List (List String),
      ((ensure_sheet_headersW ws).2 = 1 ↔ ws = []) ∧
      (ws = [] → ensure_sheet_headersW ws = ([FIELDS], 1)) ∧
      (ws ≠ [] → ensure_sheet_headersW ws = (ws, 0)) ∧
      (ensure_sheet_headersW ws).2 ≤ 1 := by
  intro ws
  cases ws with
  | nil => simp [ensure_sheet_headersW]
  | cons r rs => simp [ensure_sheet_headersW]

/-- Witness for C6: one write on the empty table, none on a one-row table. -/
theorem ensure_headers_writes_iff_empty_witness :
    ensure_sheet_headersW [] = ([FIELDS], 1) ∧
    ensure_sheet_headersW [["x"]] = ([["x"]], 0) :=
  ⟨(ensure_headers_writes_iff_empty []).2.1 rfl,
   (ensure_headers_writes_iff_empty [["x"]]).2.2.1 (by decide)⟩

/-- C7: on a worksheet whose first row is the header, the update for
zero-based position `p` rewrites exactly data row `p` (remote row `p + 2`),
addressing it through an A1 range whose row number is `p + 2`, and the
delete for position `p` removes exactly data row `p` (remote row `p + 2`),
leaving the header and all other rows in place. -/
theorem positional_addressing_index_plus_two :
    ∀ (header : List String) (data : List (List String)) (p : Nat) (patient : Rec),
      (update_patient_in_sheet (header :: data) p patient).1
        = header :: data.set p (rowOf patient) ∧
      (update_patient_in_sheet (header :: data) p patient).2
        = range_a1 FIELDS.length (p + 2) ∧
      delete_patient_in_sheet (header :: data) p
        = header :: (data.take p ++ data.drop (p + 1)) := by
  intro header data p patient
  refine ⟨rfl, ?_, rfl⟩
  simp [update_patient_in_sheet, rowOf]

/-- C10: for the canonical 18-field schema, the update range computed for
any zero-based position `p` is exactly `A{p+2}:R{p+2}`, and `R` is a valid
single-letter column identifier of value 18. -/
theorem canonical_schema_update_range :
    FIELDS.length = 18 ∧
    (∀ (ws : List (List String)) (p : Nat) (patient : Rec),
      (update_patient_in_sheet ws p patient).2
        = ['A'] ++ natChars (p + 2) ++ [':'] ++ ['R'] ++ natChars (p + 2)) ∧
    isValidColId ['R'] = true ∧ colIdVal ['R'] = 18 := by
  refine ⟨by decide, ?_, by decide, by decide⟩
  intro ws p patient
  have h : last_col (rowOf patient).length = 'R' := by
    simp only [rowOf, List.length_map]
    decide
  simp [update_patient_in_sheet, range_a1, h]

/-- C5: `append_patient_to_sheet` first ensures headers and then appends,
as the new last row, a positional row of length exactly the schema width
whose entry at schema position `i` is the record value of the `i`-th schema
field, empty string when the record lacks that field. -/
theorem append_builds_positional_row :
    ∀ (ws : List (List String)) (patient : Rec),
      append_patient_to_sheet ws patient = ensure_sheet_headers ws ++ [rowOf patient] ∧
      (rowOf patient).length = FIELDS.length ∧
      (∀ i f, FIELDS.get? i = some f →
        (rowOf patient).get? i = some (dget patient f "")) ∧
      (∀ f, hasKey patient f = false → dget patient f "" = "") := by
  intro ws patient
  refine ⟨rfl, by simp [rowOf], ?_, ?_⟩
  · intro i f hf
    simp only [rowOf]
    rw [List.get?_map, hf]
    rfl
  · intro f hf
    unfold hasKey at hf
    unfold dget
    cases h : patient.find? (fun kv => kv.1 == f) with
    | none => rfl
    | some kv => rw [h] at hf; simp at hf

/-- Witness for C5 at a one-field record: field 0 (`Age`) is filled from
the record, field 1 (`Gender`) is absent and becomes the empty string. -/
theorem append_builds_positional_row_witness :
    (rowOf [("Age", "65")]).get? 0 = some "65" ∧
    (rowOf [("Age", "65")]).get? 1 = some "" := by
  have h0 := (append_builds_positional_row [] [("Age", "65")]).2.2.1 0 "Age" (by decide)
  have h1 := (append_builds_positional_row [] [("Age", "65")]).2.2.1 1 "Gender" (by decide)
  rw [show dget [("Age", "65")] "Age" "" = "65" from by decide] at h0
  rw [show dget [("Age", "65")] "Gender" "" = "" from by decide] at h1
  exact ⟨h0, h1⟩

/-- Specification of Python `options.index` as modelled by `list_index`:
a successful lookup is the first occurrence, a failed lookup is exactly
absence from the list. -/
theorem list_index_spec {α : Type} [DecidableEq α] (options : List α) (v : α) :
    (∀ i, list_index options v = some i →
      options.get? i = some v ∧ ∀ j, j < i → options.get? j ≠ some v) ∧
    (list_index options v = none ↔ v ∉ options) := by
  induction options with
  | nil => simp [list_index]
  | cons a as ih =>
    constructor
    · intro i hi
      by_cases hav : a = v
      · simp [list_index, hav] at hi
        subst hi
        simp [hav]
      · simp [list_index, hav] at hi
        obtain ⟨i0, hi0, rfl⟩ := hi
        have h := ih.1 i0 hi0
        refine ⟨by simpa using h.1, ?_⟩
        intro j hj
        cases j with
        | zero => simpa using fun hc => hav hc
        | succ j0 =>
          simp only [List.get?_cons_succ]
          exact h.2 j0 (by omega)
    · by_cases hav : a = v
      · simp [list_index, hav]
      · simp only [list_index, hav, if_false, List.mem_cons]
        rw [show ((list_index as v).map (fun i => i + 1) = none ↔ list_index as v = none)
              from by cases list_index as v <;> simp, ih.2]
        constructor
        · intro h hor
          rcases hor with h1 | h2
          · exact hav h1.symm
          · exact h h2
        · intro h hmem
          exact h (Or.inr hmem)

/-- C8: `safe_index` is total: when the value occurs in the options it
returns the index of its first occurrence, and when the value is absent it
returns the fallback index instead of failing. -/
theorem safe_index_total_function :
    ∀ (options : List String) (value : String) (d : Nat),
      (value ∈ options → ∃ i, safe_index options value d = i ∧
        options.get? i = some value ∧ ∀ j, j < i → options.get? j ≠ some value) ∧
      (value ∉ options → safe_index options value d = d) := by
  intro options value d
  constructor
  · intro hmem
    cases h : list_index options value with
    | none => exact absurd hmem (((list_index_spec options value).2).1 h)
    | some i =>
      refine ⟨i, ?_, (list_index_spec options value).1 i h⟩
      simp [safe_index, h]
  · intro hmem
    have h := ((list_index_spec options value).2).2 hmem
    simp [safe_index, h]

/-- Witness for C8 on the gender options: a present value resolves to the
index of its first occurrence, an absent stored value falls back to the
default index without failing. -/
theorem safe_index_total_function_witness :
    (∃ i, safe_index ["Male", "Female", "Other"] "Female" 0 = i ∧
      (["Male", "Female", "Other"] : List String).get? i = some "Female" ∧
      ∀ j, j < i → (["Male", "Female", "Other"] : List String).get? j ≠ some "Female") ∧
    safe_index ["Male", "Female", "Other"] "Unknown" 0 = 0 :=
  ⟨(safe_index_total_function ["Male", "Female", "Other"] "Female" 0).1 (by decide),
   (safe_index_total_function ["Male", "Female", "Other"] "Unknown" 0).2 (by decide)⟩

/-- C3 (counterexample): the save handler applies the local update before
the remote call, so when the remote append fails (`remote = none`, the
adapter returning `False` plus an error message) the in-memory Record Set
is not left unchanged: starting from the empty Record Set it now holds the
new row. -/
theorem save_failure_mutates_record_set :
    (append_patient_call none [("Age", "65")]).2.1 = false ∧
    save_handler [] true 0 [("Age", "65")] true false [] = [rowOf [("Age", "65")]] ∧
    save_handler [] true 0 [("Age", "65")] true false [] ≠ [] := by
  refine ⟨rfl, rfl, by decide⟩

/-- C3 (amended): every adapter operation catches the failure and returns a
failure outcome with a cause message instead of raising, and a failed
remote delete leaves the Record Set unchanged; but a failed append or
update leaves the Record Set holding the locally applied change (the
handler mutates it before the remote call), and a failed load during sync
replaces the Record Set with the empty one. -/
theorem failure_paths_behavior :
    (∀ patient, append_patient_call none patient
      = (none, false, some "Failed to append patient to sheet")) ∧
    (∀ p patient, update_patient_call none p patient
      = (none, false, some "Failed to update patient in sheet")) ∧
    (∀ p, delete_patient_call none p
      = (none, false, some "Failed to delete patient row in sheet")) ∧
    (load_data_from_sheets none).2 = some "Error loading data from Google Sheets" ∧
    (∀ df idx record reloaded,
      save_handler df true idx record true false reloaded = df ++ [rowOf record]) ∧
    (∀ df idx record reloaded,
      save_handler df false idx record true false reloaded = df.set idx (rowOf record)) ∧
    (∀ df idx reloaded, delete_handler df idx true false reloaded = df) ∧
    (∀ df, sync_handler df true (load_data_from_sheets none).1.rows = []) := by
  refine ⟨fun _ => rfl, fun _ _ => rfl, fun _ => rfl, rfl, fun _ _ _ _ => rfl,
    fun _ _ _ _ => rfl, fun _ _ _ => rfl, fun _ => rfl⟩

/-- Looking a key up in a header-keyed record when the key is not among the
header cells yields the default. -/
theorem dget_zip_not_mem :
    ∀ (hs vs : List String) (f d : String), f ∉ hs → dget (hs.zip vs) f d = d := by
  intro hs
  induction hs with
  | nil => intro vs f d _; rfl
  | cons h hs ih =>
    intro vs f d hf
    cases vs with
    | nil => rfl
    | cons v vs =>
      have hne : ¬(h == f) = true := by
        simp only [beq_iff_eq]
        intro hc
        exact hf (hc ▸ List.mem_cons_self h hs)
      simp only [List.zip_cons_cons, dget, List.find?]
      rw [Bool.not_eq_true] at hne
      simp only [hne]
      exact ih vs f d (fun hc => hf (List.mem_cons_of_mem h hc))

/-- Looking a key up in a header-keyed record when the key occurs among the
header cells yields the cell of the row at a position where the header
holds that key. -/
theorem dget_zip_mem :
    ∀ (hs vs : List String) (f d : String), hs.length ≤ vs.length → f ∈ hs →
      ∃ j, hs.get? j = some f ∧ dget (hs.zip vs) f d = vs.getD j d := by
  intro hs
  induction hs with
  | nil => intro vs f d _ hf; simp at hf
  | cons h hs ih =>
    intro vs f d hlen hf
    cases vs with
    | nil => simp at hlen
    | cons v vs =>
      by_cases hh : h = f
      · refine ⟨0, by simp [hh], ?_⟩
        simp [dget, List.find?, hh, List.getD]
      · have hf1 : f ∈ hs := by
          rcases List.mem_cons.mp hf with h1 | h2
          · exact absurd h1.symm hh
          · exact h2
        obtain ⟨j, hj, hv⟩ := ih vs f d (by simpa using hlen) hf1
        refine ⟨j + 1, by simpa using hj, ?_⟩
        have hne : (h == f) = false := by simp [hh]
        simp only [List.zip_cons_cons, dget, List.find?, hne]
        simpa [dget, List.getD] using hv

/-- The padded row is at least as long as the header. -/
theorem padRow_length (n : Nat) (r : List String) : n ≤ (padRow n r).length := by
  simp [padRow]
  omega

/-- C2: loading a non-failing remote table always yields a frame whose
column list is exactly the canonical schema in schema order, with one
output row per remote data row; each output row is the canonical
projection of the header-keyed record of its data row, so a schema field
absent from the remote header becomes the empty string, a schema field
present in the header takes the row cell at a position where the header
holds that field, and remote columns outside the schema do not appear. -/
theorem load_all_projects_onto_schema :
    ∀ (header : List String) (rows : List (List String)),
      (load_data_from_sheets (some (header :: rows))).1.cols = FIELDS ∧
      (load_data_from_sheets (some (header :: rows))).1.rows.length = rows.length ∧
      (∀ i row, rows.get? i = some row →
        (load_data_from_sheets (some (header :: rows))).1.rows.get? i
          = some (FIELDS.map (fun f => dget (header.zip (padRow header.length row)) f "")) ∧
        (∀ f, f ∉ header → dget (header.zip (padRow header.length row)) f "" = "") ∧
        (∀ f, f ∈ header → ∃ j, header.get? j = some f ∧
          dget (header.zip (padRow header.length row)) f ""
            = (padRow header.length row).getD j "")) := by
  intro header rows
  cases rows with
  | nil =>
    refine ⟨rfl, rfl, ?_⟩
    intro i row hrow
    simp at hrow
  | cons r rs =>
    have hload : (load_data_from_sheets (some (header :: r :: rs))).1
        = reindex_records (get_all_records (header :: r :: rs)) := rfl
    refine ⟨rfl, ?_, ?_⟩
    · rw [hload]
      simp [reindex_records, get_all_records]
    · intro i row hrow
      refine ⟨?_, ?_, ?_⟩
      · rw [hload]
        simp only [reindex_records, get_all_records]
        rw [List.get?_map, List.get?_map, hrow]
        rfl
      · intro f hf
        exact dget_zip_not_mem header (padRow header.length row) f "" hf
      · intro f hf
        exact dget_zip_mem header (padRow header.length row) f ""
          (padRow_length header.length row) hf

/-- Witness for C2: a remote table whose header has one schema column, one
extra column, and lacks the rest; `Age` is taken from the row, `Gender` is
filled with the empty string, and the output columns are exactly the
schema. -/
theorem load_all_projects_onto_schema_witness :
    (load_data_from_sheets (some [["Age", "Junk"], ["5", "x", "extra"]])).1.cols = FIELDS ∧
    dget (["Age", "Junk"].zip (padRow 2 ["5", "x", "extra"])) "Gender" "" = "" ∧
    (∃ j, (["Age", "Junk"] : List String).get? j = some "Age" ∧
      dget (["Age", "Junk"].zip (padRow 2 ["5", "x", "extra"])) "Age" ""
        = (padRow 2 ["5", "x", "extra"]).getD j "") :=
  ⟨(load_all_projects_onto_schema ["Age", "Junk"] [["5", "x", "extra"]]).1,
   ((load_all_projects_onto_schema ["Age", "Junk"] [["5", "x", "extra"]]).2.2 0
      ["5", "x", "extra"] rfl).2.1 "Gender" (by decide),
   ((load_all_projects_onto_schema ["Age", "Junk"] [["5", "x", "extra"]]).2.2 0
      ["5", "x", "extra"] rfl).2.2 "Age" (by decide)⟩

/-!  Facts about the Python string primitives, leading to the general
behaviour of `get_sheet_id`. -/

/-- An initial segment stays one under extension on the right. -/
theorem leadsWith_append_right :
    ∀ (a b t : List Char), leadsWith a b = true → leadsWith a (b ++ t) = true := by
  intro a
  induction a with
  | nil => intro b t _; rfl
  | cons x a1 ih =>
    intro b t h
    cases b with
    | nil => simp [leadsWith] at h
    | cons y b1 =>
      simp only [leadsWith, Bool.and_eq_true] at h
      simp only [List.cons_append, leadsWith, Bool.and_eq_true]
      exact ⟨h.1, ih b1 t h.2⟩

/-- A list is an initial segment of itself extended. -/
theorem leadsWith_self_append : ∀ (a t : List Char), leadsWith a (a ++ t) = true := by
  intro a
  induction a with
  | nil => intro t; rfl
  | cons x a1 ih =>
    intro t
    simp only [List.cons_append, leadsWith, Bool.and_eq_true]
    exact ⟨by simp, ih t⟩

/-- An initial-segment test that fits inside the left part of an append is
decided by the left part alone. -/
theorem leadsWith_append_of_le :
    ∀ (sep x y : List Char), leadsWith sep (x ++ y) = true →
      sep.length ≤ x.length → leadsWith sep x = true := by
  intro sep
  induction sep with
  | nil => intro x y _ _; rfl
  | cons s sep1 ih =>
    intro x y h hle
    cases x with
    | nil => simp at hle
    | cons a x1 =>
      simp only [List.cons_append, leadsWith, Bool.and_eq_true] at h
      simp only [leadsWith, Bool.and_eq_true]
      exact ⟨h.1, ih x1 y h.2 (by simpa using hle)⟩

/-- The one-step unfolding of `splitFirst` on a non-empty string. -/
theorem splitFirst_cons_eq (sep : List Char) (a : Char) (s : List Char) :
    splitFirst sep (a :: s) =
      if leadsWith sep (a :: s) = true then some ([], (a :: s).drop sep.length)
      else
        match splitFirst sep s with
        | some (pre, post) => some (a :: pre, post)
        | none => none := rfl

/-- A non-empty separator never occurs in the empty string. -/
theorem splitFirst_nil (sep : List Char) (h : sep ≠ []) : splitFirst sep [] = none := by
  cases sep with
  | nil => exact absurd rfl h
  | cons c s => rfl

/-- If the separator is an initial segment, the first-occurrence search
succeeds. -/
theorem splitFirst_isSome_of_leadsWith (sep s : List Char) (hsep : sep ≠ [])
    (h : leadsWith sep s = true) : (splitFirst sep s).isSome = true := by
  cases s with
  | nil =>
    cases sep with
    | nil => exact absurd rfl hsep
    | cons c s1 => simp [leadsWith] at h
  | cons a s1 => simp [splitFirst, h]

/-- An occurrence in the tail survives prepending one character. -/
theorem splitFirst_cons_isSome (sep s : List Char) (a : Char)
    (h : (splitFirst sep s).isSome = true) :
    (splitFirst sep (a :: s)).isSome = true := by
  cases hlw : leadsWith sep (a :: s) with
  | true => simp [splitFirst, hlw]
  | false =>
    obtain ⟨p, hp⟩ := Option.isSome_iff_exists.mp h
    simp [splitFirst, hlw, hp]

/-- An occurrence survives extending the string on the right. -/
theorem splitFirst_append_isSome :
    ∀ (sep s t : List Char), (splitFirst sep s).isSome = true →
      (splitFirst sep (s ++ t)).isSome = true := by
  intro sep s
  induction s with
  | nil =>
    intro t h
    cases sep with
    | nil =>
      cases t with
      | nil => rfl
      | cons c t1 => simp [splitFirst, leadsWith]
    | cons c s1 => simp [splitFirst] at h
  | cons a s1 ih =>
    intro t h
    cases hlw : leadsWith sep (a :: s1) with
    | true =>
      have := leadsWith_append_right sep (a :: s1) t hlw
      simp only [List.cons_append] at this ⊢
      simp [splitFirst, this]
    | false =>
      have htail : (splitFirst sep s1).isSome = true := by
        cases hs1 : splitFirst sep s1 with
        | none => rw [splitFirst, hlw, hs1] at h; simp at h
        | some p => rfl
      simpa using splitFirst_cons_isSome sep (s1 ++ t) a (ih t htail)

/-- If the first character of the separator does not occur in `xs` and the
separator does not occur in `ys`, it does not occur in `xs ++ ys`. -/
theorem splitFirst_none_of_fresh :
    ∀ (c : Char) (sep2 xs ys : List Char), c ∉ xs →
      splitFirst (c :: sep2) ys = none →
      splitFirst (c :: sep2) (xs ++ ys) = none := by
  intro c sep2 xs
  induction xs with
  | nil => intro ys _ h; exact h
  | cons a xs1 ih =>
    intro ys hc h
    have hca : (c == a) = false := by
      simp only [beq_eq_false_iff_ne, ne_eq]
      intro hcc
      exact hc (by rw [hcc]; exact List.mem_cons_self a xs1)
    have hlw : leadsWith (c :: sep2) (a :: (xs1 ++ ys)) = false := by
      simp [leadsWith, hca]
    have hrec := ih ys (fun hm => hc (List.mem_cons_of_mem a hm)) h
    show splitFirst (c :: sep2) ((a :: xs1) ++ ys) = none
    rw [List.cons_append, splitFirst_cons_eq,
      if_neg (by rw [hlw]; exact Bool.false_ne_true), hrec]

/-- First-occurrence splitting around an explicitly placed separator: when
the separator does not occur strictly before its explicit position, the
split returns exactly the part before and the part after. -/
theorem splitFirst_exact :
    ∀ (sep pre post : List Char), sep ≠ [] →
      splitFirst sep ((pre ++ sep).dropLast) = none →
      splitFirst sep (pre ++ (sep ++ post)) = some (pre, post) := by
  intro sep pre
  induction pre with
  | nil =>
    intro post hsep _
    cases sep with
    | nil => exact absurd rfl hsep
    | cons c sep1 =>
      show splitFirst (c :: sep1) ((c :: sep1) ++ post) = some ([], post)
      have hlw : leadsWith (c :: sep1) (c :: (sep1 ++ post)) = true := by
        have h := leadsWith_self_append (c :: sep1) post
        rwa [List.cons_append] at h
      rw [List.cons_append, splitFirst_cons_eq, if_pos hlw]
      have hdrop : (c :: (sep1 ++ post)).drop ((c :: sep1).length) = post := by
        show (sep1 ++ post).drop sep1.length = post
        exact List.drop_left sep1 post
      rw [hdrop]
  | cons a pre1 ih =>
    intro post hsep hnone
    have hps : pre1 ++ sep ≠ [] := by
      cases sep with
      | nil => exact absurd rfl hsep
      | cons c s1 => simp
    have hD : ((a :: pre1) ++ sep).dropLast = a :: (pre1 ++ sep).dropLast := by
      rw [List.cons_append, List.dropLast_cons_of_ne_nil hps]
    rw [hD] at hnone
    have hnone1 : splitFirst sep ((pre1 ++ sep).dropLast) = none := by
      cases hs : splitFirst sep ((pre1 ++ sep).dropLast) with
      | none => rfl
      | some p =>
        have h1 : (splitFirst sep (a :: (pre1 ++ sep).dropLast)).isSome = true :=
          splitFirst_cons_isSome sep _ a (by rw [hs]; rfl)
        rw [hnone] at h1
        simp at h1
    cases hlw : leadsWith sep (a :: (pre1 ++ (sep ++ post))) with
    | true =>
      exfalso
      have hg := List.dropLast_append_getLast hps
      have h2 : (pre1 ++ sep).dropLast ++ ([(pre1 ++ sep).getLast hps] ++ post)
          = pre1 ++ (sep ++ post) := by
        rw [← List.append_assoc, hg, List.append_assoc]
      have hlen : sep.length ≤ (a :: (pre1 ++ sep).dropLast).length := by
        obtain ⟨c, s1, rfl⟩ : ∃ c s1, sep = c :: s1 := by
          cases sep with
          | nil => exact absurd rfl hsep
          | cons c s1 => exact ⟨c, s1, rfl⟩
        simp only [List.length_cons, List.length_dropLast, List.length_append]
        omega
      have hlead : leadsWith sep (a :: (pre1 ++ sep).dropLast) = true := by
        refine leadsWith_append_of_le sep (a :: (pre1 ++ sep).dropLast)
          ([(pre1 ++ sep).getLast hps] ++ post) ?_ hlen
        show leadsWith sep
          (a :: ((pre1 ++ sep).dropLast ++ ([(pre1 ++ sep).getLast hps] ++ post))) = true
        rw [h2]
        exact hlw
      have hsome := splitFirst_isSome_of_leadsWith sep _ hsep hlead
      rw [hnone] at hsome
      simp at hsome
    | false =>
      have hrec := ih post hsep hnone1
      show splitFirst sep ((a :: pre1) ++ (sep ++ post)) = some (a :: pre1, post)
      rw [List.cons_append, splitFirst_cons_eq,
        if_neg (by rw [hlw]; exact Bool.false_ne_true), hrec]

/-- If the separator does not occur, splitting yields the whole string for
any fuel. -/
theorem splitOnFuel_of_none (sep s : List Char) (h : splitFirst sep s = none) :
    ∀ fuel, splitOnFuel sep fuel s = [s] := by
  intro fuel
  cases fuel with
  | zero => rfl
  | succ n => simp [splitOnFuel, h]

/-- Splitting a string that contains exactly one separator occurrence. -/
theorem py_split_two (sep s pre post : List Char) (hs : s ≠ [])
    (h1 : splitFirst sep s = some (pre, post)) (h2 : splitFirst sep post = none) :
    py_split s sep = [pre, post] := by
  unfold py_split
  cases hlen : s.length with
  | zero => exact absurd (List.length_eq_zero.mp hlen) hs
  | succ n =>
    simp only [splitOnFuel, h1]
    rw [splitOnFuel_of_none sep post h2 n]

/-- The head of a Python split is the part before the first occurrence. -/
theorem py_split_head (sep s pre post : List Char) (hs : s ≠ [])
    (h1 : splitFirst sep s = some (pre, post)) :
    (py_split s sep).getD 0 [] = pre := by
  unfold py_split
  cases hlen : s.length with
  | zero => exact absurd (List.length_eq_zero.mp hlen) hs
  | succ n => simp [splitOnFuel, h1]

/-- The scheme-and-host part of a canonical spreadsheet URL, up to (not
including) the `/d/` segment. -/
def docs_url_head : List Char := "https://docs.google.com/spreadsheets".toList

/-- C9 (counterexample): on the locator `docs.google.com/spreadsheets`,
which contains no `/d/<id>/` segment, resolution does not fall back to the
locator itself: `get_sheet_id` returns no identifier and the error
`Invalid Sheet URL format`. -/
theorem get_sheet_id_docs_url_without_segment :
    get_sheet_id "docs.google.com/spreadsheets".toList
      = (none, some "Invalid Sheet URL format") ∧
    get_sheet_id "docs.google.com/spreadsheets".toList
      ≠ (some "docs.google.com/spreadsheets".toList, none) := by
  refine ⟨by decide, by decide⟩

/-- C9 (amended): `get_sheet_id` first tests for the marker
`docs.google.com/spreadsheets`. A locator without the marker is used
verbatim as the identifier. A locator with the marker but without `/d/`
fails with `Invalid Sheet URL format` instead of being used verbatim. A
canonical URL `https://docs.google.com/spreadsheets/d/<id>/<rest>` whose
`<id>` contains no slash and whose tail contains no further `/d/` resolves
to exactly the substring between `/d/` and the next slash. -/
theorem get_sheet_id_branches :
    (∀ url, py_contains url docs_pat = false → get_sheet_id url = (some url, none)) ∧
    (∀ url, py_contains url docs_pat = true → py_contains url d_pat = false →
      get_sheet_id url = (none, some "Invalid Sheet URL format")) ∧
    (∀ id rest, '/' ∉ id → py_contains ('/' :: rest) d_pat = false →
      get_sheet_id (docs_url_head ++ (d_pat ++ (id ++ '/' :: rest)))
        = (some id, none)) := by
  refine ⟨?_, ?_, ?_⟩
  · intro url h
    simp [get_sheet_id, h]
  · intro url h1 h2
    simp [get_sheet_id, h1, h2]
  · intro id rest hid hrest
    have hsep : d_pat ≠ [] := by decide
    have hrest2 : splitFirst d_pat ('/' :: rest) = none := by
      cases hsp : splitFirst d_pat ('/' :: rest) with
      | none => rfl
      | some p =>
        rw [py_contains, hsp] at hrest
        simp at hrest
    have h1 : splitFirst d_pat (docs_url_head ++ (d_pat ++ (id ++ '/' :: rest)))
        = some (docs_url_head, id ++ '/' :: rest) := by
      apply splitFirst_exact d_pat docs_url_head (id ++ '/' :: rest) hsep
      decide
    have h2 : splitFirst d_pat (id ++ '/' :: rest) = none := by
      have h := splitFirst_none_of_fresh '/' ['d', '/'] id ('/' :: rest) hid hrest2
      exact h
    have hne : docs_url_head ++ (d_pat ++ (id ++ '/' :: rest)) ≠ [] :=
      List.append_ne_nil_of_left_ne_nil (by decide) _
    have h3 : py_split (docs_url_head ++ (d_pat ++ (id ++ '/' :: rest))) d_pat
        = [docs_url_head, id ++ '/' :: rest] :=
      py_split_two d_pat _ docs_url_head (id ++ '/' :: rest) hne h1 h2
    have hb1 : py_contains (docs_url_head ++ (d_pat ++ (id ++ '/' :: rest))) docs_pat
        = true := by
      unfold py_contains
      exact splitFirst_append_isSome docs_pat docs_url_head _ (by decide)
    have hb2 : py_contains (docs_url_head ++ (d_pat ++ (id ++ '/' :: rest))) d_pat
        = true := by
      unfold py_contains
      rw [h1]
      rfl
    have h5 : splitFirst ['/'] (id ++ '/' :: rest) = some (id, rest) := by
      have hnone : splitFirst ['/'] ((id ++ ['/']).dropLast) = none := by
        rw [List.dropLast_concat]
        have h := splitFirst_none_of_fresh '/' [] id [] hid (by decide)
        rwa [List.append_nil] at h
      exact splitFirst_exact ['/'] id rest (by decide) hnone
    have hne2 : id ++ '/' :: rest ≠ [] := by
      cases id with
      | nil => simp
      | cons c cs => simp
    have h6 : (py_split (id ++ '/' :: rest) ['/']).getD 0 [] = id :=
      py_split_head ['/'] _ id rest hne2 h5
    simp only [get_sheet_id, hb1, hb2, if_true]
    rw [h3, show ([docs_url_head, id ++ '/' :: rest] : List (List Char)).getD 1 []
        = id ++ '/' :: rest from rfl, h6]

/-- Witness for C9 on the canonical URL shape: the identifier `ABC123` is
extracted from `https://docs.google.com/spreadsheets/d/ABC123/edit`. -/
theorem get_sheet_id_branches_witness :
    get_sheet_id (docs_url_head ++ (d_pat ++ ("ABC123".toList ++ '/' :: "edit".toList)))
      = (some "ABC123".toList, none) :=
  get_sheet_id_branches.2.2 "ABC123".toList "edit".toList (by decide) (by decide)
